import Mathlib

/-!
Shallow embedding of the `checked-automerge` model-checking harness.

The protocol layer (`src/main.rs`: the `Peer` replica actor, the message
vocabulary, `all_same_state`, `syncing_done_and_in_sync`,
`ModelCfg::into_actor_model`, `Opts`) and the single-shot delete clients
(`src/client/delete.rs`) are translated directly from the source.

The repository delegates document storage to the external `automerge`
crate through a `Doc` adapter (`src/doc.rs`, not part of the sources we
embed) and the request-generating `Client` actor lives in `src/client.rs`
(also absent); those parts are modelled from the specification, and each
such definition carries a doc comment saying so.
-/

namespace CheckedAutomerge

/-- Actor identifiers (`stateright::actor::Id`), modelled as naturals. -/
abbrev Id := Nat

/-- `type RequestId = usize;` -/
abbrev RequestId := Nat

/-- `type Key = String;` -/
abbrev Key := String

/-- `type Value = String;` -/
abbrev Value := String

/-- `enum SyncMethod { Changes, Messages }` from `src/main.rs`. -/
inductive SyncMethod where
  | Changes
  | Messages
deriving DecidableEq

/-- Modelled from the spec: the operation recorded by one local mutation of
the Document Engine (a map put or a map delete). -/
inductive Op where
  | put (key : Key) (value : Value)
  | del (key : Key)
deriving DecidableEq

/-- Modelled from the spec: "an opaque, self-contained record of one local
mutation, exportable and applicable independent of sync-message state"
(`automerge::Change`). We tag each change with the originating actor and a
sequence number so distinct mutations yield distinct changes. -/
structure Change where
  actor : Id
  seq : Nat
  op : Op
deriving DecidableEq

/-- Modelled from the spec: "an opaque, incremental payload exchanged between
two replicas to bring one up to date with the other's known history"
(`automerge::sync::Message`). It carries the changes the sender believes the
receiver lacks. -/
structure SyncMsg where
  changes : List Change
deriving DecidableEq

/-- Modelled from the spec: the encoded bytes of a sync message. A payload is
either the faithful encoding of a message or malformed; decoding fails
exactly on malformed bytes. -/
inductive MsgBytes where
  | ok (m : SyncMsg)
  | bad
deriving DecidableEq

/-- Modelled from the spec: the encoded bytes of a change
(`Change::raw_bytes` / `Change::from_bytes`). -/
inductive ChangeBytes where
  | ok (c : Change)
  | bad
deriving DecidableEq

/-- `sync::Message::decode`: succeeds exactly on well-formed bytes. -/
def decode_sync_message : MsgBytes → Option SyncMsg
  | .ok m => some m
  | .bad => none

/-- `Change::from_bytes`: succeeds exactly on well-formed bytes. -/
def Change.from_bytes : ChangeBytes → Option Change
  | .ok c => some c
  | .bad => none

/-- `Change::raw_bytes`: the encoding of a change. -/
def Change.raw_bytes (c : Change) : ChangeBytes :=
  ChangeBytes.ok c

/-- `message.encode()`: the encoding of a sync message. -/
def SyncMsg.encode (m : SyncMsg) : MsgBytes :=
  MsgBytes.ok m

/-- Insert or overwrite a key in a key-sorted association list; keeping the
list sorted gives a canonical representation so that equal maps compare
equal, matching value-based comparison of `Doc::values`. -/
def mapPut (k : Key) (v : Value) : List (Key × Value) → List (Key × Value)
  | [] => [(k, v)]
  | (k', v') :: rest =>
    if k = k' then (k, v) :: rest
    else if k < k' then (k, v) :: (k', v') :: rest
    else (k', v') :: mapPut k v rest

/-- Look a key up in an association list. -/
def mapGet (k : Key) : List (Key × Value) → Option Value
  | [] => none
  | (k', v') :: rest => if k = k' then some v' else mapGet k rest

/-- Remove a key from an association list. -/
def mapDel (k : Key) (m : List (Key × Value)) : List (Key × Value) :=
  m.filter (fun kv => kv.1 ≠ k)

/-- Look up the sync cursor recorded for a peer (0 when absent). -/
def lookupD (l : List (Id × Nat)) (p : Id) : Nat :=
  match l with
  | [] => 0
  | e :: rest => if e.1 = p then e.2 else lookupD rest p

/-- Record a sync cursor for a peer, replacing any previous entry. -/
def setD (l : List (Id × Nat)) (p : Id) (n : Nat) : List (Id × Nat) :=
  match l with
  | [] => [(p, n)]
  | e :: rest => if e.1 = p then (p, n) :: rest else e :: setD rest p n

/-- Modelled from the spec: the Document Engine adapter (`src/doc.rs`,
wrapping `automerge::AutoCommit`). It owns the observable key-value map, the
history of applied changes, the latest local change (present only when the
last local mutation actually changed state), and the implicit per-peer sync
cursors ("the replica maintains implicit per-peer sync cursors inside the
Document Engine"): for each peer, how many entries of `history` the replica
believes that peer already has. -/
structure Doc where
  actor : Id
  map : List (Key × Value)
  history : List Change
  lastLocal : Option Change
  peerKnown : List (Id × Nat)
deriving DecidableEq

/-- `Doc::new(id)`: a fresh, empty document bound to the actor identity. -/
def Doc.new (id : Id) : Doc :=
  ⟨id, [], [], none, []⟩

/-- Apply the operation of a change to the observable map. -/
def Doc.applyOp (d : Doc) : Op → Doc
  | .put k v => { d with map := mapPut k v d.map }
  | .del k => { d with map := mapDel k d.map }

/-- Modelled from the spec: `put(key, value)`. A local mutation that changes
state records a fresh change; a no-op put (the key already holds the value)
records none, so that "the latest local change ... exists (i.e., the
mutation actually changed state)". -/
def Doc.put (d : Doc) (k : Key) (v : Value) : Doc :=
  if mapGet k d.map = some v then { d with lastLocal := none }
  else
    let c : Change := ⟨d.actor, d.history.length, Op.put k v⟩
    { d with
        map := mapPut k v d.map
        history := d.history ++ [c]
        lastLocal := some c }

/-- Modelled from the spec: `delete(key)`. Deleting an absent key changes
nothing and records no change. -/
def Doc.delete (d : Doc) (k : Key) : Doc :=
  if mapGet k d.map = none then { d with lastLocal := none }
  else
    let c : Change := ⟨d.actor, d.history.length, Op.del k⟩
    { d with
        map := mapDel k d.map
        history := d.history ++ [c]
        lastLocal := some c }

/-- Modelled from the spec: `get(key) -> value?`. -/
def Doc.get (d : Doc) (k : Key) : Option Value :=
  mapGet k d.map

/-- Modelled from the spec: `exportLastChange() -> bytes?`
(`last_local_change`). -/
def Doc.last_local_change (d : Doc) : Option Change :=
  d.lastLocal

/-- Modelled from the spec: `applyChange` (`apply_change`): import a change;
a change already in the history is idempotently ignored. -/
def Doc.apply_change (d : Doc) (c : Change) : Doc :=
  if c ∈ d.history then d
  else { d.applyOp c.op with
           history := d.history ++ [c]
           lastLocal := d.lastLocal
           peerKnown := d.peerKnown
           actor := d.actor }

/-- Modelled from the spec: `generateSyncMessage(peer) -> bytes?`
(`generate_sync_message`, which mutates the per-peer sync state). A message
is produced exactly when the cursor for that peer lags the history; it
carries the changes the peer lacks, and producing it advances the cursor. -/
def Doc.generate_sync_message (d : Doc) (p : Id) : Option SyncMsg × Doc :=
  let k := lookupD d.peerKnown p
  if k < d.history.length then
    (some ⟨d.history.drop k⟩, { d with peerKnown := setD d.peerKnown p d.history.length })
  else
    (none, d)

/-- Modelled from the spec: `receiveSyncMessage(peer, bytes)`
(`receive_sync_message`): apply the carried changes as the sync state
transition for that peer. -/
def Doc.receive_sync_message (d : Doc) (_p : Id) (m : SyncMsg) : Doc :=
  m.changes.foldl Doc.apply_change d

/-- `Doc::values`: the observable key-value content, compared by value in the
properties. -/
def Doc.values (d : Doc) : List (Key × Value) :=
  d.map

/-- `enum PeerMsg { SyncMessage { message_bytes }, SyncChange { change_bytes } }`. -/
inductive PeerMsg where
  | SyncMessage (message_bytes : MsgBytes)
  | SyncChange (change_bytes : ChangeBytes)
deriving DecidableEq

/-- Modelled from the spec: the client message family of `src/client.rs`.
The exhaustive `match` in `Peer::on_msg` (src/main.rs lines 80-184) shows the
exact variant set: `Put`, `Get`, `Delete` requests and the corresponding
acknowledgements. -/
inductive ClientMsg where
  | Put (id : RequestId) (key : Key) (value : Value)
  | Get (id : RequestId) (key : Key)
  | Delete (id : RequestId) (key : Key)
  | PutOk (id : RequestId)
  | GetOk (id : RequestId) (value : Value)
  | DeleteOk (id : RequestId)
deriving DecidableEq

/-- `enum MyRegisterMsg { Internal(PeerMsg), Client(ClientMsg) }`. -/
inductive MyRegisterMsg where
  | Internal (m : PeerMsg)
  | Client (m : ClientMsg)
deriving DecidableEq

/-- `struct Peer { peers, sync_method, message_acks }`: the replica actor
configuration. -/
structure Peer where
  peers : List Id
  sync_method : SyncMethod
  message_acks : Bool
deriving DecidableEq

/-- The `SyncMethod::Messages` dissemination loop of `Peer::on_msg`
(src/main.rs lines 101-115 and 146-160): for each peer in order, ask the
document to generate a sync message for that peer (threading the mutated
document through) and send it when one is produced. -/
def syncAll (d : Doc) : List Id → Doc × List (Id × MyRegisterMsg)
  | [] => (d, [])
  | p :: rest =>
    match d.generate_sync_message p with
    | (some m, d') =>
      let (d'', out) := syncAll d' rest
      (d'', (p, MyRegisterMsg.Internal (PeerMsg.SyncMessage m.encode)) :: out)
    | (none, d') => syncAll d' rest

/-- The `SyncMethod::Changes` dissemination step of `Peer::on_msg`
(src/main.rs lines 91-100 and 136-145): broadcast the latest local change,
when one exists, unchanged to every peer. -/
def changeBroadcast (peers : List Id) (d : Doc) : List (Id × MyRegisterMsg) :=
  match d.last_local_change with
  | some change =>
    peers.map (fun p => (p, MyRegisterMsg.Internal (PeerMsg.SyncChange change.raw_bytes)))
  | none => []

/-- The strategy-dependent dissemination step shared by the `Put` and
`Delete` arms of `Peer::on_msg`. -/
def disseminate (cfg : Peer) (d : Doc) : Doc × List (Id × MyRegisterMsg) :=
  match cfg.sync_method with
  | .Changes => (d, changeBroadcast cfg.peers d)
  | .Messages => syncAll d cfg.peers

/-- `Peer::on_msg` (src/main.rs lines 72-185). The result is the new
document state paired with the emitted `(destination, message)` list, in
send order; `none` models the fatal `unwrap` panic on a malformed
synchronization payload. -/
def Peer.on_msg (cfg : Peer) (state : Doc) (src : Id) (msg : MyRegisterMsg) :
    Option (Doc × List (Id × MyRegisterMsg)) :=
  match msg with
  | .Client (.Put id key value) =>
    let d := state.put key value
    let acks := if cfg.message_acks then [(src, MyRegisterMsg.Client (ClientMsg.PutOk id))] else []
    let (d', syncs) := disseminate cfg d
    some (d', acks ++ syncs)
  | .Client (.Get id key) =>
    match state.get key with
    | some value =>
      some (state,
        if cfg.message_acks then [(src, MyRegisterMsg.Client (ClientMsg.GetOk id value))] else [])
    | none => some (state, [])
  | .Client (.Delete id key) =>
    let d := state.delete key
    let acks :=
      if cfg.message_acks then [(src, MyRegisterMsg.Client (ClientMsg.DeleteOk id))] else []
    let (d', syncs) := disseminate cfg d
    some (d', acks ++ syncs)
  | .Internal (.SyncMessage message_bytes) =>
    match decode_sync_message message_bytes with
    | none => none
    | some message =>
      let d := state.receive_sync_message src message
      match d.generate_sync_message src with
      | (some reply, d') =>
        some (d', [(src, MyRegisterMsg.Internal (PeerMsg.SyncMessage reply.encode))])
      | (none, d') => some (d', [])
  | .Internal (.SyncChange change_bytes) =>
    match Change.from_bytes change_bytes with
    | none => none
    | some change => some (state.apply_change change, [])
  | .Client (.PutOk _) => some (state, [])
  | .Client (.GetOk _ _) => some (state, [])
  | .Client (.DeleteOk _) => some (state, [])

/-- The message list emitted by one (successful) replica step; a faulted step
emits nothing. -/
def peer_out (cfg : Peer) (state : Doc) (src : Id) (msg : MyRegisterMsg) :
    List (Id × MyRegisterMsg) :=
  match Peer.on_msg cfg state src msg with
  | some r => r.2
  | none => []

/-- Modelled from the spec: `enum RequestType` of `src/client.rs`. The `Put`
and `Delete` variants are the ones constructed in
`ModelCfg::into_actor_model`; the spec additionally names an `Insert`
(list) request kind. -/
inductive RequestType where
  | Put
  | Delete
  | Insert
deriving DecidableEq

/-- Modelled from the spec: the `Client` actor configuration of
`src/client.rs`; the field set and types are visible in the struct literals
of `ModelCfg::into_actor_model` (src/main.rs lines 309-325). -/
structure Client where
  count : Nat
  follow_up_gets : Bool
  server_count : Nat
  message_acks : Bool
  request_type : RequestType
deriving DecidableEq

/-- `enum MyRegisterActor { Client(Client), Server(Peer) }`. -/
inductive MyRegisterActor where
  | Client (c : Client)
  | Server (p : Peer)
deriving DecidableEq

/-- `enum MyRegisterActorState { Client(..), Server(..) }`. The client state
is the unit state ("clients are stateless ... state type is the unit");
the server state is the document. -/
inductive MyRegisterActorState where
  | Client (s : Unit)
  | Server (s : Doc)
deriving DecidableEq

/-- `fn all_same_state(actors: &[Arc<MyRegisterActorState>]) -> bool`
(src/main.rs lines 343-352): `actors.windows(2).all(..)`, i.e. every
adjacent pair passes the four-way match, which compares the documents of two
servers by value and treats every pair involving a client as true. -/
def all_same_state : List MyRegisterActorState → Bool
  | a :: b :: rest =>
    (match a, b with
     | .Client _, .Client _ => true
     | .Client _, .Server _ => true
     | .Server _, .Client _ => true
     | .Server x, .Server y => decide (x.values = y.values))
    && all_same_state (b :: rest)
  | _ => true

/-- A deliverable network envelope (`stateright` `Envelope`): source,
destination and message. -/
structure Envelope where
  src : Id
  dst : Id
  msg : MyRegisterMsg
deriving DecidableEq

/-- The global state seen by a property
(`ActorModelState<MyRegisterActor>`): actor states in actor order, and the
deliverable network contents. -/
structure ActorModelState where
  actor_states : List MyRegisterActorState
  network : List Envelope
deriving DecidableEq

/-- The scanning loop at the head of `syncing_done_and_in_sync` (src/main.rs
lines 356-366): return at the first deliverable `Internal` message, skip
`Client` messages. -/
def deliverable_internal : List Envelope → Bool
  | [] => false
  | e :: rest =>
    match e.msg with
    | .Internal (.SyncMessage _) => true
    | .Internal (.SyncChange _) => true
    | .Client _ => deliverable_internal rest

/-- `fn syncing_done_and_in_sync(state) -> bool` (src/main.rs lines
354-370): true at once when any internal message is deliverable, otherwise
`all_same_state` over the actor states. -/
def syncing_done_and_in_sync (state : ActorModelState) : Bool :=
  if deliverable_internal state.network then true
  else all_same_state state.actor_states

/-- `struct ModelCfg` (src/main.rs lines 288-295). -/
structure ModelCfg where
  put_clients : Nat
  delete_clients : Nat
  servers : Nat
  follow_up_gets : Bool
  sync_method : SyncMethod
  message_acks : Bool
deriving DecidableEq

/-- `stateright::actor::model_peers(i, count)`: the identifiers of every
other actor among the first `count`, in increasing order. -/
def model_peers (i count : Nat) : List Id :=
  (List.range count).filter (fun j => j ≠ i)

/-- The replica actor pushed for index `i` by the first loop of
`ModelCfg::into_actor_model` (src/main.rs lines 300-306). -/
def server_actor_of (cfg : ModelCfg) (i : Nat) : MyRegisterActor :=
  MyRegisterActor.Server
    { peers := model_peers i cfg.servers
      sync_method := cfg.sync_method
      message_acks := cfg.message_acks }

/-- The put client pushed by the second loop of `ModelCfg::into_actor_model`
(src/main.rs lines 308-316); note the hardcoded `count: 2`. -/
def put_client_actor (cfg : ModelCfg) : MyRegisterActor :=
  MyRegisterActor.Client
    { count := 2
      follow_up_gets := cfg.follow_up_gets
      server_count := cfg.servers
      message_acks := cfg.message_acks
      request_type := RequestType.Put }

/-- The delete client pushed by the third loop of
`ModelCfg::into_actor_model` (src/main.rs lines 318-326); note the hardcoded
`count: 2`. -/
def delete_client_actor (cfg : ModelCfg) : MyRegisterActor :=
  MyRegisterActor.Client
    { count := 2
      follow_up_gets := cfg.follow_up_gets
      server_count := cfg.servers
      message_acks := cfg.message_acks
      request_type := RequestType.Delete }

/-- `ModelCfg::into_actor_model` (src/main.rs lines 297-341), restricted to
the actor list it registers: `servers` replicas (each with the full peer
mesh), then `put_clients` put clients, then `delete_clients` delete clients.
The two properties the same function registers are `all_same_state`
(Eventually) and `syncing_done_and_in_sync` (Always), embedded above. -/
def ModelCfg.into_actor_model (cfg : ModelCfg) : List MyRegisterActor :=
  (List.range cfg.servers).map (server_actor_of cfg)
  ++ (List.range cfg.put_clients).map (fun _ => put_client_actor cfg)
  ++ (List.range cfg.delete_clients).map (fun _ => delete_client_actor cfg)

/-- `enum SubCmd { Serve, CheckDfs, CheckBfs }`. -/
inductive SubCmd where
  | Serve
  | CheckDfs
  | CheckBfs
deriving DecidableEq

/-- `struct Opts` (src/main.rs lines 372-394): the complete command-line
surface. -/
structure Opts where
  command : SubCmd
  put_clients : Nat
  delete_clients : Nat
  servers : Nat
  follow_up_gets : Bool
  message_acks : Bool
  sync_method : SyncMethod
deriving DecidableEq

/-- The `ModelCfg` literal built from the parsed options in `main`
(src/main.rs lines 406-413). -/
def Opts.to_model_cfg (o : Opts) : ModelCfg :=
  { put_clients := o.put_clients
    delete_clients := o.delete_clients
    servers := o.servers
    follow_up_gets := o.follow_up_gets
    sync_method := o.sync_method
    message_acks := o.message_acks }

/-- Modelled from the spec: the `Request` message type of `src/client.rs`,
with the variants constructed in `src/client/delete.rs`. -/
inductive Request where
  | DeleteMap (key : String)
  | DeleteList (index : Nat)
deriving DecidableEq

/-- `struct MapSingleDeleter { key, request_count }`
(src/client/delete.rs). -/
structure MapSingleDeleter where
  key : String
  request_count : Nat
deriving DecidableEq

/-- `struct ListDeleter { index, request_count }` (src/client/delete.rs). -/
structure ListDeleter where
  index : Nat
  request_count : Nat
deriving DecidableEq

/-- The send loop of the deleter clients: `for _ in 0..request_count`
append one send of the given message. -/
def clientSendLoop (m : Id × Request) : Nat → List (Id × Request)
  | 0 => []
  | k + 1 => clientSendLoop m k ++ [m]

/-- `MapSingleDeleter::on_start` (src/client/delete.rs lines 17-26): emit
`request_count` copies of `Request::DeleteMap(key)` to `Id::from(0)`; the
state is the unit state. -/
def MapSingleDeleter.on_start (a : MapSingleDeleter) : Unit × List (Id × Request) :=
  ((), clientSendLoop ((0 : Id), Request.DeleteMap a.key) a.request_count)

/-- `ListDeleter::on_start` (src/client/delete.rs lines 41-50): emit
`request_count` copies of `Request::DeleteList(index)` to `Id::from(0)`;
the state is the unit state. -/
def ListDeleter.on_start (a : ListDeleter) : Unit × List (Id × Request) :=
  ((), clientSendLoop ((0 : Id), Request.DeleteList a.index) a.request_count)

/-! ### Helper lemmas about `all_same_state` -/

lemma all_same_state_nil : all_same_state [] = true := rfl

lemma all_same_state_singleton (x : MyRegisterActorState) : all_same_state [x] = true := rfl

lemma all_same_state_cons_cons (a b : MyRegisterActorState) (l : List MyRegisterActorState) :
    all_same_state (a :: b :: l) =
      ((match a, b with
        | .Client _, .Client _ => true
        | .Client _, .Server _ => true
        | .Server _, .Client _ => true
        | .Server x, .Server y => decide (x.values = y.values))
       && all_same_state (b :: l)) := rfl

lemma all_same_state_client_cons (c : Unit) (y : MyRegisterActorState)
    (l : List MyRegisterActorState) :
    all_same_state (MyRegisterActorState.Client c :: y :: l) = all_same_state (y :: l) := by
  cases y <;> simp [all_same_state_cons_cons]

lemma all_same_state_cons_client (x : MyRegisterActorState) (c : Unit)
    (l : List MyRegisterActorState) :
    all_same_state (x :: MyRegisterActorState.Client c :: l) =
      all_same_state (MyRegisterActorState.Client c :: l) := by
  cases x <;> simp [all_same_state_cons_cons]

/-- Claim C5 (amended): `all_same_state` treats every comparison involving a
Client state as vacuously true, and over an arbitrary list it returns true
exactly when every adjacent pair of Server states holds equal observable
document values (not every pair, as claimed). -/
theorem c5_all_same_state_adjacent :
    (∀ l : List MyRegisterActorState,
      all_same_state l = true ↔
        ∀ i a b, l.get? i = some (.Server a) → l.get? (i + 1) = some (.Server b) →
          a.values = b.values)
    ∧ (∀ (c : Unit) (y : MyRegisterActorState) (l : List MyRegisterActorState),
        all_same_state (MyRegisterActorState.Client c :: y :: l) = all_same_state (y :: l))
    ∧ (∀ (x : MyRegisterActorState) (c : Unit) (l : List MyRegisterActorState),
        all_same_state (x :: MyRegisterActorState.Client c :: l) =
          all_same_state (MyRegisterActorState.Client c :: l)) := by
  refine ⟨?_, all_same_state_client_cons, all_same_state_cons_client⟩
  intro l
  induction l with
  | nil =>
    simp [all_same_state_nil]
  | cons x t ih =>
    cases t with
    | nil =>
      simp [all_same_state_singleton, List.get?]
    | cons y t' =>
      rw [all_same_state_cons_cons, Bool.and_eq_true, ih]
      constructor
      · rintro ⟨hxy, htail⟩ i a b h1 h2
        cases i with
        | zero =>
          simp [List.get?] at h1 h2
          subst h1
          cases y with
          | Client _ => simp at h2
          | Server yv =>
            simp at h2
            subst h2
            simpa using hxy
        | succ j =>
          exact htail j a b (by simpa [List.get?] using h1) (by simpa [List.get?] using h2)
      · intro h
        constructor
        · cases x with
          | Client _ => cases y <;> rfl
          | Server xv =>
            cases y with
            | Client _ => rfl
            | Server yv =>
              simpa using h 0 xv yv (by simp [List.get?]) (by simp [List.get?])
        · intro i a b h1 h2
          exact h (i + 1) a b (by simpa [List.get?] using h1) (by simpa [List.get?] using h2)

/-- A concrete actor-state list in which the two server states are separated
by a client state. -/
def c5List : List MyRegisterActorState :=
  [MyRegisterActorState.Server (Doc.new 0),
   MyRegisterActorState.Client (),
   MyRegisterActorState.Server ((Doc.new 1).put "key" "v")]

/-- Claim C5 counterexample: `all_same_state` only compares adjacent list
entries, so on `[Server a, Client, Server b]` it returns true even though
the two server documents hold different observable values — refuting, at
this concrete input, that it returns true only when every pair of server
states agrees. -/
theorem c5_counterexample_interleaved :
    all_same_state c5List = true
    ∧ MyRegisterActorState.Server (Doc.new 0) ∈ c5List
    ∧ MyRegisterActorState.Server ((Doc.new 1).put "key" "v") ∈ c5List
    ∧ ((Doc.new 0).values = ((Doc.new 1).put "key" "v").values → False) := by
  refine ⟨by decide, by decide, by decide, by decide⟩

/-- Claim C5 witness: the adjacent-pair characterization applied at a
concrete list whose head is a client state. -/
theorem c5_witness :
    all_same_state
      [MyRegisterActorState.Client (), MyRegisterActorState.Server (Doc.new 0)] =
      all_same_state [MyRegisterActorState.Server (Doc.new 0)] :=
  c5_all_same_state_adjacent.2.1 () (MyRegisterActorState.Server (Doc.new 0)) []

/-- Claim C8: delivering an `Internal` `SyncMessage` or `SyncChange` whose
bytes fail to decode makes the replica step terminate with an unrecoverable
fault (the `unwrap` panic, embedded as `none`): no state survives the step,
no partial application happens and no message is emitted; moreover these
malformed payloads are the only inputs on which a step faults. -/
theorem c8_malformed_payload_fatal (cfg : Peer) (state : Doc) (src : Id) :
    Peer.on_msg cfg state src (.Internal (.SyncMessage MsgBytes.bad)) = none
    ∧ Peer.on_msg cfg state src (.Internal (.SyncChange ChangeBytes.bad)) = none
    ∧ ∀ msg, Peer.on_msg cfg state src msg = none →
        msg = MyRegisterMsg.Internal (PeerMsg.SyncMessage MsgBytes.bad)
        ∨ msg = MyRegisterMsg.Internal (PeerMsg.SyncChange ChangeBytes.bad) := by
  refine ⟨rfl, rfl, ?_⟩
  intro msg h
  match msg with
  | .Client (.Put id key value) =>
    rcases hd : disseminate cfg (state.put key value) with ⟨d2, syncs⟩
    simp [Peer.on_msg, hd] at h
  | .Client (.Get id key) =>
    rcases hg : state.get key with _ | v <;> simp [Peer.on_msg, hg] at h
  | .Client (.Delete id key) =>
    rcases hd : disseminate cfg (state.delete key) with ⟨d2, syncs⟩
    simp [Peer.on_msg, hd] at h
  | .Client (.PutOk _) => simp [Peer.on_msg] at h
  | .Client (.GetOk _ _) => simp [Peer.on_msg] at h
  | .Client (.DeleteOk _) => simp [Peer.on_msg] at h
  | .Internal (.SyncMessage mb) =>
    cases mb with
    | bad => exact Or.inl rfl
    | ok m =>
      rcases hg : (state.receive_sync_message src m).generate_sync_message src with ⟨om, d'⟩
      cases om <;> simp [Peer.on_msg, decode_sync_message, hg] at h
  | .Internal (.SyncChange cb) =>
    cases cb with
    | bad => exact Or.inr rfl
    | ok c => simp [Peer.on_msg, Change.from_bytes] at h

/-- Claim C8 witness: the fault characterization applied at a concrete
malformed sync message. -/
theorem c8_witness :
    MyRegisterMsg.Internal (PeerMsg.SyncMessage MsgBytes.bad) =
      MyRegisterMsg.Internal (PeerMsg.SyncMessage MsgBytes.bad)
    ∨ MyRegisterMsg.Internal (PeerMsg.SyncMessage MsgBytes.bad) =
      MyRegisterMsg.Internal (PeerMsg.SyncChange ChangeBytes.bad) :=
  (c8_malformed_payload_fatal ⟨[], SyncMethod.Changes, false⟩ (Doc.new 0) 0).2.2 _ rfl

lemma clientSendLoop_eq_replicate (m : Id × Request) :
    ∀ n, clientSendLoop m n = List.replicate n m
  | 0 => rfl
  | n + 1 => by
    show clientSendLoop m n ++ [m] = _
    rw [clientSendLoop_eq_replicate m n, ← List.replicate_succ']

/-- Claim C9: `MapSingleDeleter::on_start` emits exactly `request_count`
`DeleteMap(key)` requests, all to actor `Id` 0, and returns the unit state;
`ListDeleter::on_start` behaves identically with `DeleteList(index)`
requests. -/
theorem c9_deleter_clients (key : String) (idx n : Nat) :
    (MapSingleDeleter.on_start ⟨key, n⟩).1 = ()
    ∧ (MapSingleDeleter.on_start ⟨key, n⟩).2.length = n
    ∧ (∀ e ∈ (MapSingleDeleter.on_start ⟨key, n⟩).2, e = ((0 : Id), Request.DeleteMap key))
    ∧ (ListDeleter.on_start ⟨idx, n⟩).1 = ()
    ∧ (ListDeleter.on_start ⟨idx, n⟩).2.length = n
    ∧ (∀ e ∈ (ListDeleter.on_start ⟨idx, n⟩).2, e = ((0 : Id), Request.DeleteList idx)) := by
  refine ⟨rfl, ?_, ?_, rfl, ?_, ?_⟩ <;>
    simp [MapSingleDeleter.on_start, ListDeleter.on_start, clientSendLoop_eq_replicate]

/-- Claim C9 witness: the deleter characterization applied at a concrete
client configuration with two requests. -/
theorem c9_witness :
    ((0 : Id), Request.DeleteMap "key") = ((0 : Id), Request.DeleteMap "key") :=
  (c9_deleter_clients "key" 0 2).2.2.1 _ (by decide)

/-- Claim C10: every client actor built by `ModelCfg::into_actor_model` from
any parsed command line has its request count fixed at the hardcoded 2; no
field of `Opts` feeds it. -/
theorem c10_client_count_hardcoded (opts : Opts) (c : Client) :
    MyRegisterActor.Client c ∈ (Opts.to_model_cfg opts).into_actor_model → c.count = 2 := by
  intro h
  simp only [ModelCfg.into_actor_model, Opts.to_model_cfg, List.mem_append,
    List.mem_map, List.mem_range] at h
  rcases h with (⟨i, _, hi⟩ | ⟨i, _, hi⟩) | ⟨i, _, hi⟩
  · exact absurd hi (by simp [server_actor_of])
  · rw [put_client_actor] at hi
    cases hi
    rfl
  · rw [delete_client_actor] at hi
    cases hi
    rfl

/-- Claim C10 witness: a concrete command line with one put client. -/
theorem c10_witness :
    (⟨2, false, 1, false, RequestType.Put⟩ : Client).count = 2 :=
  c10_client_count_hardcoded ⟨SubCmd.Serve, 1, 0, 1, false, false, SyncMethod.Changes⟩ _
    (by decide)

/-! ### Helper lemmas for the global stable-state predicate -/

lemma all_same_state_cons_clients (x : MyRegisterActorState) (cs : List Unit) :
    all_same_state (x :: cs.map MyRegisterActorState.Client) = true := by
  induction cs generalizing x with
  | nil => rfl
  | cons c cs ih =>
    rw [List.map_cons, all_same_state_cons_client]
    exact ih (MyRegisterActorState.Client c)

lemma all_same_state_clients (cs : List Unit) :
    all_same_state (cs.map MyRegisterActorState.Client) = true := by
  cases cs with
  | nil => rfl
  | cons c cs => exact all_same_state_cons_clients (MyRegisterActorState.Client c) cs

/-- The actor-state list as the model assembler arranges it: the server
(replica) states at consecutive leading positions, the client states after
them. -/
def assembled_states (docs : List Doc) (cs : List Unit) : List MyRegisterActorState :=
  docs.map MyRegisterActorState.Server ++ cs.map MyRegisterActorState.Client

/-- Over an assembler-shaped list, the adjacent-pair scan of
`all_same_state` coincides with full pairwise agreement of the replica
documents. -/
lemma all_same_state_assembled (docs : List Doc) (cs : List Unit) :
    all_same_state (assembled_states docs cs) = true ↔
      ∀ a ∈ docs, ∀ b ∈ docs, a.values = b.values := by
  induction docs with
  | nil =>
    simp [assembled_states, all_same_state_clients]
  | cons d rest ih =>
    cases rest with
    | nil =>
      rw [show assembled_states [d] cs =
            MyRegisterActorState.Server d :: cs.map MyRegisterActorState.Client from rfl,
          all_same_state_cons_clients]
      simp
    | cons d2 rest2 =>
      have step : all_same_state (assembled_states (d :: d2 :: rest2) cs) =
          (decide (d.values = d2.values) && all_same_state (assembled_states (d2 :: rest2) cs)) :=
        rfl
      rw [step, Bool.and_eq_true, decide_eq_true_eq, ih]
      constructor
      · rintro ⟨h12, hp⟩ a ha b hb
        have key : ∀ x ∈ d :: d2 :: rest2, Doc.values x = d2.values := by
          intro x hx
          rcases List.mem_cons.mp hx with rfl | hx
          · exact h12
          · exact hp x hx d2 (List.mem_cons_self _ _)
        rw [key a ha, key b hb]
      · intro hall
        exact ⟨hall d (List.mem_cons_self _ _) d2
            (List.mem_cons_of_mem _ (List.mem_cons_self _ _)),
          fun a ha b hb =>
            hall a (List.mem_cons_of_mem _ ha) b (List.mem_cons_of_mem _ hb)⟩

/-- The `Internal`/`Client` envelope tag used by `syncing_done_and_in_sync`
to classify deliverable traffic. -/
def is_internal_msg : MyRegisterMsg → Bool
  | .Internal _ => true
  | .Client _ => false

lemma deliverable_internal_of_mem (net : List Envelope) (e : Envelope) (he : e ∈ net)
    (hi : is_internal_msg e.msg = true) : deliverable_internal net = true := by
  induction net with
  | nil => cases he
  | cons f rest ih =>
    rcases List.mem_cons.mp he with rfl | he'
    · rcases hm : e.msg with pm | cm
      · cases pm <;> simp [deliverable_internal, hm]
      · rw [hm] at hi
        simp [is_internal_msg] at hi
    · rcases hm : f.msg with pm | cm
      · cases pm <;> simp [deliverable_internal, hm]
      · simp only [deliverable_internal, hm]
        exact ih he'

lemma deliverable_internal_false (net : List Envelope)
    (h : ∀ e ∈ net, is_internal_msg e.msg = false) : deliverable_internal net = false := by
  induction net with
  | nil => rfl
  | cons f rest ih =>
    rcases hm : f.msg with pm | cm
    · have := h f (List.mem_cons_self _ _)
      rw [hm] at this
      simp [is_internal_msg] at this
    · simp only [deliverable_internal, hm]
      exact ih fun e he => h e (List.mem_cons_of_mem _ he)

lemma deliverable_internal_filter (net : List Envelope) :
    deliverable_internal (net.filter (fun e => is_internal_msg e.msg)) =
      deliverable_internal net := by
  induction net with
  | nil => rfl
  | cons f rest ih =>
    rcases hm : f.msg with pm | cm
    · rw [List.filter_cons_of_pos (by simp [hm, is_internal_msg])]
      cases pm <;> simp [deliverable_internal, hm]
    · rw [List.filter_cons_of_neg (by simp [hm, is_internal_msg])]
      simp only [deliverable_internal, hm]
      exact ih

/-- Claim C1: over any assembler-shaped global state, the Always predicate
`syncing_done_and_in_sync` is true whenever some `Internal` message is
deliverable; when none is, it is true exactly when all replica documents
hold identical observable values; and pending `Client` messages neither
satisfy it vacuously nor block it (removing them never changes its value). -/
theorem c1_stable_state_predicate (net : List Envelope) (docs : List Doc) (cs : List Unit) :
    ((∃ e ∈ net, is_internal_msg e.msg = true) →
      syncing_done_and_in_sync ⟨assembled_states docs cs, net⟩ = true)
    ∧ ((∀ e ∈ net, is_internal_msg e.msg = false) →
      (syncing_done_and_in_sync ⟨assembled_states docs cs, net⟩ = true ↔
        ∀ a ∈ docs, ∀ b ∈ docs, a.values = b.values))
    ∧ syncing_done_and_in_sync
        ⟨assembled_states docs cs, net.filter (fun e => is_internal_msg e.msg)⟩ =
      syncing_done_and_in_sync ⟨assembled_states docs cs, net⟩ := by
  refine ⟨?_, ?_, ?_⟩
  · rintro ⟨e, he, hi⟩
    simp [syncing_done_and_in_sync, deliverable_internal_of_mem net e he hi]
  · intro h
    simpa [syncing_done_and_in_sync, deliverable_internal_false net h] using
      all_same_state_assembled docs cs
  · simp [syncing_done_and_in_sync, deliverable_internal_filter]

/-- Claim C1 witness: with one malformed sync change deliverable, the
predicate is vacuously true at a concrete one-replica state. -/
theorem c1_witness :
    syncing_done_and_in_sync
      ⟨assembled_states [Doc.new 0] [],
       [⟨0, 1, MyRegisterMsg.Internal (PeerMsg.SyncChange ChangeBytes.bad)⟩]⟩ = true :=
  (c1_stable_state_predicate
      [⟨0, 1, MyRegisterMsg.Internal (PeerMsg.SyncChange ChangeBytes.bad)⟩]
      [Doc.new 0] []).1
    ⟨⟨0, 1, MyRegisterMsg.Internal (PeerMsg.SyncChange ChangeBytes.bad)⟩, by decide, rfl⟩

/-! ### Helper lemmas for the per-peer sync cursors -/

lemma lookupD_setD_self (l : List (Id × Nat)) (p : Id) (n : Nat) :
    lookupD (setD l p n) p = n := by
  induction l with
  | nil => simp [setD, lookupD]
  | cons e rest ih =>
    by_cases h : e.1 = p
    · simp [setD, lookupD, h]
    · simp [setD, lookupD, h, ih]

lemma lookupD_setD_ne (l : List (Id × Nat)) (p q : Id) (n : Nat) (h : q ≠ p) :
    lookupD (setD l p n) q = lookupD l q := by
  have h' : ¬ p = q := fun hh => h hh.symm
  induction l with
  | nil => simp [setD, lookupD, h']
  | cons e rest ih =>
    by_cases he : e.1 = p
    · subst he
      simp [setD, lookupD, h']
    · simp [setD, lookupD, he, ih]

lemma generate_some (d : Doc) (p : Id) (h : lookupD d.peerKnown p < d.history.length) :
    d.generate_sync_message p =
      (some ⟨d.history.drop (lookupD d.peerKnown p)⟩,
       { d with peerKnown := setD d.peerKnown p d.history.length }) := by
  simp [Doc.generate_sync_message, h]

lemma generate_none (d : Doc) (p : Id) (h : ¬ lookupD d.peerKnown p < d.history.length) :
    d.generate_sync_message p = (none, d) := by
  simp [Doc.generate_sync_message, h]

lemma generate_isSome (d : Doc) (p : Id) :
    (d.generate_sync_message p).1.isSome = true ↔
      lookupD d.peerKnown p < d.history.length := by
  by_cases h : lookupD d.peerKnown p < d.history.length
  · simp [generate_some d p h, h]
  · simp [generate_none d p h, h]

/-- Which peers actually receive a `SyncMessage` from the threaded
generation pass: exactly those in the peer list whose sync cursor lags the
history of the starting document — the pass for one peer touches no other
peer's cursor and never changes the history. -/
lemma syncAll_mem_iff (peers : List Id) (d : Doc) (q : Id) :
    (∃ b, (q, MyRegisterMsg.Internal (PeerMsg.SyncMessage b)) ∈ (syncAll d peers).2) ↔
      (q ∈ peers ∧ lookupD d.peerKnown q < d.history.length) := by
  induction peers generalizing d with
  | nil => simp [syncAll]
  | cons p rest ih =>
    by_cases hp : lookupD d.peerKnown p < d.history.length
    · have e2 : (syncAll d (p :: rest)).2 =
          (p, MyRegisterMsg.Internal (PeerMsg.SyncMessage
            (SyncMsg.encode ⟨d.history.drop (lookupD d.peerKnown p)⟩))) ::
          (syncAll { d with peerKnown := setD d.peerKnown p d.history.length } rest).2 := by
        rcases hs : syncAll { d with peerKnown := setD d.peerKnown p d.history.length } rest
          with ⟨d2, out⟩
        simp [syncAll, generate_some d p hp, hs]
      rw [e2]
      by_cases hq : q = p
      · subst hq
        constructor
        · intro _
          exact ⟨List.mem_cons_self _ _, hp⟩
        · intro _
          exact ⟨SyncMsg.encode ⟨d.history.drop (lookupD d.peerKnown q)⟩,
            List.mem_cons_self _ _⟩
      · constructor
        · rintro ⟨b, hb⟩
          rcases List.mem_cons.mp hb with heq | hb'
          · exact absurd (congrArg Prod.fst heq) hq
          · have := ih { d with peerKnown := setD d.peerKnown p d.history.length } |>.mp ⟨b, hb'⟩
            refine ⟨List.mem_cons_of_mem _ this.1, ?_⟩
            have h2 := this.2
            rwa [show ({ d with peerKnown := setD d.peerKnown p d.history.length } : Doc).peerKnown
                  = setD d.peerKnown p d.history.length from rfl,
                lookupD_setD_ne _ _ _ _ hq] at h2
        · rintro ⟨hmem, hlag⟩
          rcases List.mem_cons.mp hmem with rfl | hmem'
          · exact absurd rfl hq
          · have := ih { d with peerKnown := setD d.peerKnown p d.history.length } |>.mpr
              ⟨hmem', by
                rw [show ({ d with peerKnown := setD d.peerKnown p d.history.length } : Doc).peerKnown
                      = setD d.peerKnown p d.history.length from rfl,
                  lookupD_setD_ne _ _ _ _ hq]
                exact hlag⟩
            rcases this with ⟨b, hb⟩
            exact ⟨b, List.mem_cons_of_mem _ hb⟩
    · have e2 : syncAll d (p :: rest) = syncAll d rest := by
        simp [syncAll, generate_none d p hp]
      rw [e2, ih d]
      constructor
      · rintro ⟨h1, h2⟩
        exact ⟨List.mem_cons_of_mem _ h1, h2⟩
      · rintro ⟨h1, h2⟩
        rcases List.mem_cons.mp h1 with rfl | h1'
        · exact absurd h2 hp
        · exact ⟨h1', h2⟩

/-- The `Put` arm of `Peer::on_msg` under message-based sync, computed. -/
lemma on_msg_put_messages (peers : List Id) (acks : Bool) (state : Doc) (src : Id)
    (id : RequestId) (key : Key) (value : Value) :
    Peer.on_msg ⟨peers, SyncMethod.Messages, acks⟩ state src
        (.Client (.Put id key value)) =
      some ((syncAll (state.put key value) peers).1,
        (if acks then [(src, MyRegisterMsg.Client (ClientMsg.PutOk id))] else [])
          ++ (syncAll (state.put key value) peers).2) := by
  rcases hs : syncAll (state.put key value) peers with ⟨d2, out⟩
  simp [Peer.on_msg, disseminate, hs]

/-- The `Delete` arm of `Peer::on_msg` under message-based sync, computed. -/
lemma on_msg_delete_messages (peers : List Id) (acks : Bool) (state : Doc) (src : Id)
    (id : RequestId) (key : Key) :
    Peer.on_msg ⟨peers, SyncMethod.Messages, acks⟩ state src
        (.Client (.Delete id key)) =
      some ((syncAll (state.delete key) peers).1,
        (if acks then [(src, MyRegisterMsg.Client (ClientMsg.DeleteOk id))] else [])
          ++ (syncAll (state.delete key) peers).2) := by
  rcases hs : syncAll (state.delete key) peers with ⟨d2, out⟩
  simp [Peer.on_msg, disseminate, hs]

lemma internal_not_mem_ack (q : Id) (b : MsgBytes) (src : Id) (acks : Bool)
    (cm : ClientMsg) :
    (q, MyRegisterMsg.Internal (PeerMsg.SyncMessage b)) ∉
      (if acks then [(src, MyRegisterMsg.Client cm)] else []) := by
  cases acks <;> simp

/-- Generating a sync message only touches the per-peer cursors: the
observable map, the history and the latest local change survive. -/
lemma generate_snd_fields (d : Doc) (p : Id) :
    ((d.generate_sync_message p).2).map = d.map
    ∧ ((d.generate_sync_message p).2).history = d.history
    ∧ ((d.generate_sync_message p).2).lastLocal = d.lastLocal := by
  by_cases h : lookupD d.peerKnown p < d.history.length
  · rw [generate_some d p h]
    exact ⟨rfl, rfl, rfl⟩
  · rw [generate_none d p h]
    exact ⟨rfl, rfl, rfl⟩

/-- The whole per-peer generation pass only touches the sync cursors: the
document coming out of `syncAll` has the same observable map, history and
latest local change as the one going in. -/
lemma syncAll_fst_fields (peers : List Id) (d : Doc) :
    (syncAll d peers).1.map = d.map
    ∧ (syncAll d peers).1.history = d.history
    ∧ (syncAll d peers).1.lastLocal = d.lastLocal := by
  induction peers generalizing d with
  | nil => exact ⟨rfl, rfl, rfl⟩
  | cons p rest ih =>
    rcases hg : d.generate_sync_message p with ⟨om, d'⟩
    have hf := generate_snd_fields d p
    rw [hg] at hf
    obtain ⟨g1, g2, g3⟩ := hf
    cases om with
    | some m =>
      have e1 : (syncAll d (p :: rest)).1 = (syncAll d' rest).1 := by
        rcases hs : syncAll d' rest with ⟨d2, out⟩
        simp [syncAll, hg, hs]
      rw [e1]
      obtain ⟨h1, h2, h3⟩ := ih d'
      exact ⟨h1.trans g1, h2.trans g2, h3.trans g3⟩
    | none =>
      have e1 : syncAll d (p :: rest) = syncAll d' rest := by
        simp [syncAll, hg]
      rw [e1]
      obtain ⟨h1, h2, h3⟩ := ih d'
      exact ⟨h1.trans g1, h2.trans g2, h3.trans g3⟩

/-- The replica configuration of the claim C2 counterexample: two peers,
message-based sync. -/
def c2cfg : Peer := ⟨[1, 2], SyncMethod.Messages, false⟩

/-- The document of the claim C2 counterexample: one local put applied. -/
def c2doc : Doc := (Doc.new 0).put "key" "v"

/-- The inbound sync message of the claim C2 counterexample, carrying one
remote change from peer 1. -/
def c2msg : SyncMsg := ⟨[⟨1, 0, Op.put "other" "w"⟩]⟩

/-- Claim C2 counterexample: on delivery of a `SyncMessage` from peer 1, the
replica whose peer set is {1, 2} would produce a sync message for peer 2
(generation on the post-receive document succeeds), yet the handler sends
nothing to peer 2 — it only replies to the sender — refuting that after
receiving a sync message the replica generates and sends for each peer in
its peer set. -/
theorem c2_counterexample_reply_only_to_sender :
    (2 : Id) ∈ c2cfg.peers
    ∧ ((c2doc.receive_sync_message 1 c2msg).generate_sync_message 2).1.isSome = true
    ∧ (peer_out c2cfg c2doc 1
        (.Internal (.SyncMessage (MsgBytes.ok c2msg)))).filter (fun e => e.1 == 2) = []
    ∧ peer_out c2cfg c2doc 1 (.Internal (.SyncMessage (MsgBytes.ok c2msg))) ≠ [] := by
  exact ⟨by decide, by decide, by decide, by decide⟩

/-- Claim C2 (amended): in message-based sync mode, after a local mutation
(delivery of a client `Put` or `Delete`) the replica attempts generation for
each peer and a `SyncMessage` reaches exactly the peers for which generation
on the post-mutation document produces one; after receiving a `SyncMessage`,
however, it attempts generation only for the sender and sends the produced
reply, if any, to the sender — at most one message per receipt, every one of
them addressed to the sender. -/
theorem c2_message_sync_generation (peers : List Id) (acks : Bool) (state : Doc)
    (src : Id) (id : RequestId) (key : Key) (value : Value) (q : Id) (mb : MsgBytes) :
    ((∃ b, (q, MyRegisterMsg.Internal (PeerMsg.SyncMessage b)) ∈
        peer_out ⟨peers, SyncMethod.Messages, acks⟩ state src
          (.Client (.Put id key value))) ↔
      (q ∈ peers ∧ ((state.put key value).generate_sync_message q).1.isSome = true))
    ∧ ((∃ b, (q, MyRegisterMsg.Internal (PeerMsg.SyncMessage b)) ∈
        peer_out ⟨peers, SyncMethod.Messages, acks⟩ state src
          (.Client (.Delete id key))) ↔
      (q ∈ peers ∧ ((state.delete key).generate_sync_message q).1.isSome = true))
    ∧ ((peer_out ⟨peers, SyncMethod.Messages, acks⟩ state src
          (.Internal (.SyncMessage mb))).length ≤ 1)
    ∧ (∀ e ∈ peer_out ⟨peers, SyncMethod.Messages, acks⟩ state src
          (.Internal (.SyncMessage mb)), e.1 = src) := by
  refine ⟨?_, ?_, ?_, ?_⟩
  · rw [peer_out, on_msg_put_messages peers acks state src id key value]
    rw [generate_isSome]
    constructor
    · rintro ⟨b, hb⟩
      rcases List.mem_append.mp hb with hb' | hb'
      · exact absurd hb' (internal_not_mem_ack q b src acks (ClientMsg.PutOk id))
      · exact (syncAll_mem_iff peers (state.put key value) q).mp ⟨b, hb'⟩
    · intro h
      rcases (syncAll_mem_iff peers (state.put key value) q).mpr h with ⟨b, hb⟩
      exact ⟨b, List.mem_append.mpr (Or.inr hb)⟩
  · rw [peer_out, on_msg_delete_messages peers acks state src id key]
    rw [generate_isSome]
    constructor
    · rintro ⟨b, hb⟩
      rcases List.mem_append.mp hb with hb' | hb'
      · exact absurd hb' (internal_not_mem_ack q b src acks (ClientMsg.DeleteOk id))
      · exact (syncAll_mem_iff peers (state.delete key) q).mp ⟨b, hb'⟩
    · intro h
      rcases (syncAll_mem_iff peers (state.delete key) q).mpr h with ⟨b, hb⟩
      exact ⟨b, List.mem_append.mpr (Or.inr hb)⟩
  · cases mb with
    | bad => simp [peer_out, Peer.on_msg, decode_sync_message]
    | ok m =>
      rcases hg : (state.receive_sync_message src m).generate_sync_message src with ⟨om, d'⟩
      cases om <;> simp [peer_out, Peer.on_msg, decode_sync_message, hg]
  · intro e he
    cases mb with
    | bad =>
      simp [peer_out, Peer.on_msg, decode_sync_message] at he
    | ok m =>
      rcases hg : (state.receive_sync_message src m).generate_sync_message src with ⟨om, d'⟩
      cases om with
      | none => simp [peer_out, Peer.on_msg, decode_sync_message, hg] at he
      | some reply =>
        have : peer_out ⟨peers, SyncMethod.Messages, acks⟩ state src
            (.Internal (.SyncMessage (MsgBytes.ok m))) =
            [(src, MyRegisterMsg.Internal (PeerMsg.SyncMessage reply.encode))] := by
          simp [peer_out, Peer.on_msg, decode_sync_message, hg]
        rw [this] at he
        rcases List.mem_singleton.mp he with rfl
        rfl

/-- Claim C2 witness: the sender-only property of the receipt path applied
at the concrete counterexample run. -/
theorem c2_witness :
    ((1 : Id), MyRegisterMsg.Internal (PeerMsg.SyncMessage
      (MsgBytes.ok ⟨[⟨0, 0, Op.put "key" "v"⟩, ⟨1, 0, Op.put "other" "w"⟩]⟩))).1 = (1 : Id) :=
  (c2_message_sync_generation [1, 2] false ((Doc.new 0).put "key" "v") 1 0 "key" "v" 2
      (MsgBytes.ok ⟨[⟨1, 0, Op.put "other" "w"⟩]⟩)).2.2.2
    ((1 : Id), MyRegisterMsg.Internal (PeerMsg.SyncMessage
      (MsgBytes.ok ⟨[⟨0, 0, Op.put "key" "v"⟩, ⟨1, 0, Op.put "other" "w"⟩]⟩)))
    (by decide)

/-- Envelope classifier: messages of the `Client` family. -/
def is_client_env (e : Id × MyRegisterMsg) : Bool :=
  match e.2 with
  | .Client _ => true
  | .Internal _ => false

lemma filter_client_broadcast (peers : List Id) (d : Doc) :
    (changeBroadcast peers d).filter is_client_env = [] := by
  rcases hc : d.last_local_change with _ | c
  · simp [changeBroadcast, hc]
  · rw [changeBroadcast, hc]
    refine List.filter_eq_nil_iff.mpr ?_
    intro e he
    rcases List.mem_map.mp he with ⟨p, _, rfl⟩
    simp [is_client_env]

lemma filter_internal_broadcast (peers : List Id) (d : Doc) :
    (changeBroadcast peers d).filter (fun e => !is_client_env e) = changeBroadcast peers d := by
  rcases hc : d.last_local_change with _ | c
  · simp [changeBroadcast, hc]
  · rw [changeBroadcast, hc]
    refine List.filter_eq_self.mpr ?_
    intro e he
    rcases List.mem_map.mp he with ⟨p, _, rfl⟩
    simp [is_client_env]

/-- The per-peer generation pass emits `Internal` messages only. -/
lemma filter_client_syncAll (peers : List Id) (d : Doc) :
    ((syncAll d peers).2).filter is_client_env = [] := by
  induction peers generalizing d with
  | nil => rfl
  | cons p rest ih =>
    rcases hg : d.generate_sync_message p with ⟨om, d'⟩
    cases om with
    | some m =>
      have e2 : (syncAll d (p :: rest)).2 =
          (p, MyRegisterMsg.Internal (PeerMsg.SyncMessage m.encode)) ::
            (syncAll d' rest).2 := by
        rcases hs : syncAll d' rest with ⟨d2, out⟩
        simp [syncAll, hg, hs]
      rw [e2, List.filter_cons_of_neg (by simp [is_client_env])]
      exact ih d'
    | none =>
      have e2 : syncAll d (p :: rest) = syncAll d' rest := by
        simp [syncAll, hg]
      rw [e2]
      exact ih d'

/-- The `Put` arm of `Peer::on_msg` under change propagation, computed. -/
lemma on_msg_put_changes (peers : List Id) (acks : Bool) (state : Doc) (src : Id)
    (id : RequestId) (key : Key) (value : Value) :
    Peer.on_msg ⟨peers, SyncMethod.Changes, acks⟩ state src
        (.Client (.Put id key value)) =
      some (state.put key value,
        (if acks then [(src, MyRegisterMsg.Client (ClientMsg.PutOk id))] else [])
          ++ changeBroadcast peers (state.put key value)) := by
  simp [Peer.on_msg, disseminate]

/-- The `Delete` arm of `Peer::on_msg` under change propagation, computed. -/
lemma on_msg_delete_changes (peers : List Id) (acks : Bool) (state : Doc) (src : Id)
    (id : RequestId) (key : Key) :
    Peer.on_msg ⟨peers, SyncMethod.Changes, acks⟩ state src
        (.Client (.Delete id key)) =
      some (state.delete key,
        (if acks then [(src, MyRegisterMsg.Client (ClientMsg.DeleteOk id))] else [])
          ++ changeBroadcast peers (state.delete key)) := by
  simp [Peer.on_msg, disseminate]

/-- Claim C4: delivering a client `Put` (resp. `Delete`) — under either sync
strategy — succeeds and applies the mutation to the document (the resulting
document differs from the mutated one in at most sync-cursor bookkeeping:
its observable values, history and latest local change are those of the
mutation); the client-family output is exactly one matching `PutOk` (resp.
`DeleteOk`) to `src` when acknowledgements are enabled and empty when
disabled; and under change propagation the internal output broadcasts the
latest local change, unchanged, to every peer when one exists, and is empty
when none does. -/
theorem c4_mutation_ack_and_broadcast (peers : List Id) (sm : SyncMethod) (acks : Bool)
    (state : Doc) (src : Id) (id : RequestId) (key : Key) (value : Value) :
    ((Peer.on_msg ⟨peers, sm, acks⟩ state src
        (.Client (.Put id key value))).isSome = true)
    ∧ (∀ r, Peer.on_msg ⟨peers, sm, acks⟩ state src (.Client (.Put id key value)) = some r →
        r.1.values = (state.put key value).values
        ∧ r.1.history = (state.put key value).history
        ∧ r.1.last_local_change = (state.put key value).last_local_change)
    ∧ ((peer_out ⟨peers, sm, acks⟩ state src
        (.Client (.Put id key value))).filter is_client_env =
          if acks then [(src, MyRegisterMsg.Client (ClientMsg.PutOk id))] else [])
    ∧ (∀ c, (state.put key value).last_local_change = some c →
        (peer_out ⟨peers, SyncMethod.Changes, acks⟩ state src
          (.Client (.Put id key value))).filter (fun e => !is_client_env e) =
          peers.map (fun p => (p, MyRegisterMsg.Internal (PeerMsg.SyncChange c.raw_bytes))))
    ∧ ((state.put key value).last_local_change = none →
        (peer_out ⟨peers, SyncMethod.Changes, acks⟩ state src
          (.Client (.Put id key value))).filter (fun e => !is_client_env e) = [])
    ∧ ((Peer.on_msg ⟨peers, sm, acks⟩ state src
        (.Client (.Delete id key))).isSome = true)
    ∧ (∀ r, Peer.on_msg ⟨peers, sm, acks⟩ state src (.Client (.Delete id key)) = some r →
        r.1.values = (state.delete key).values
        ∧ r.1.history = (state.delete key).history
        ∧ r.1.last_local_change = (state.delete key).last_local_change)
    ∧ ((peer_out ⟨peers, sm, acks⟩ state src
        (.Client (.Delete id key))).filter is_client_env =
          if acks then [(src, MyRegisterMsg.Client (ClientMsg.DeleteOk id))] else [])
    ∧ (∀ c, (state.delete key).last_local_change = some c →
        (peer_out ⟨peers, SyncMethod.Changes, acks⟩ state src
          (.Client (.Delete id key))).filter (fun e => !is_client_env e) =
          peers.map (fun p => (p, MyRegisterMsg.Internal (PeerMsg.SyncChange c.raw_bytes))))
    ∧ ((state.delete key).last_local_change = none →
        (peer_out ⟨peers, SyncMethod.Changes, acks⟩ state src
          (.Client (.Delete id key))).filter (fun e => !is_client_env e) = []) := by
  have hputC := on_msg_put_changes peers acks state src id key value
  have hputM := on_msg_put_messages peers acks state src id key value
  have hdelC := on_msg_delete_changes peers acks state src id key
  have hdelM := on_msg_delete_messages peers acks state src id key
  refine ⟨?_, ?_, ?_, ?_, ?_, ?_, ?_, ?_, ?_, ?_⟩
  · cases sm
    · rw [hputC]
      rfl
    · rw [hputM]
      rfl
  · intro r hr
    cases sm
    · rw [hputC] at hr
      injection hr with h2
      subst h2
      exact ⟨rfl, rfl, rfl⟩
    · rw [hputM] at hr
      injection hr with h2
      subst h2
      exact syncAll_fst_fields peers (state.put key value)
  · cases sm
    · rw [peer_out, hputC, List.filter_append, filter_client_broadcast]
      cases acks <;> simp [is_client_env]
    · rw [peer_out, hputM, List.filter_append, filter_client_syncAll]
      cases acks <;> simp [is_client_env]
  · intro c hc
    rw [peer_out, hputC, List.filter_append, filter_internal_broadcast]
    rw [show changeBroadcast peers (state.put key value) =
          peers.map (fun p => (p, MyRegisterMsg.Internal (PeerMsg.SyncChange c.raw_bytes)))
        from by rw [changeBroadcast, hc]]
    cases acks <;> simp [is_client_env]
  · intro hc
    rw [peer_out, hputC, List.filter_append, filter_internal_broadcast]
    rw [show changeBroadcast peers (state.put key value) = [] from by rw [changeBroadcast, hc]]
    cases acks <;> simp [is_client_env]
  · cases sm
    · rw [hdelC]
      rfl
    · rw [hdelM]
      rfl
  · intro r hr
    cases sm
    · rw [hdelC] at hr
      injection hr with h2
      subst h2
      exact ⟨rfl, rfl, rfl⟩
    · rw [hdelM] at hr
      injection hr with h2
      subst h2
      exact syncAll_fst_fields peers (state.delete key)
  · cases sm
    · rw [peer_out, hdelC, List.filter_append, filter_client_broadcast]
      cases acks <;> simp [is_client_env]
    · rw [peer_out, hdelM, List.filter_append, filter_client_syncAll]
      cases acks <;> simp [is_client_env]
  · intro c hc
    rw [peer_out, hdelC, List.filter_append, filter_internal_broadcast]
    rw [show changeBroadcast peers (state.delete key) =
          peers.map (fun p => (p, MyRegisterMsg.Internal (PeerMsg.SyncChange c.raw_bytes)))
        from by rw [changeBroadcast, hc]]
    cases acks <;> simp [is_client_env]
  · intro hc
    rw [peer_out, hdelC, List.filter_append, filter_internal_broadcast]
    rw [show changeBroadcast peers (state.delete key) = [] from by rw [changeBroadcast, hc]]
    cases acks <;> simp [is_client_env]

/-- Claim C4 witness: the broadcast characterization applied at a concrete
two-peer replica with acknowledgements enabled. -/
theorem c4_witness :
    (peer_out ⟨[1, 2], SyncMethod.Changes, true⟩ (Doc.new 0) 5
        (.Client (.Put 7 "k" "v"))).filter (fun e => !is_client_env e) =
      [1, 2].map (fun p => (p, MyRegisterMsg.Internal
        (PeerMsg.SyncChange (Change.raw_bytes ⟨0, 0, Op.put "k" "v"⟩)))) :=
  (c4_mutation_ack_and_broadcast [1, 2] SyncMethod.Changes true (Doc.new 0) 5 7
      "k" "v").2.2.2.1
    ⟨0, 0, Op.put "k" "v"⟩ (by decide)

/-- Claim C6: delivery of an `Internal` `SyncMessage` to a replica emits at
most one message, and every message it emits is a `SyncMessage` addressed
back to the sender `src`. -/
theorem c6_at_most_one_reply (cfg : Peer) (state : Doc) (src : Id) (mb : MsgBytes)
    (r : Doc × List (Id × MyRegisterMsg))
    (h : Peer.on_msg cfg state src (.Internal (.SyncMessage mb)) = some r) :
    r.2.length ≤ 1
    ∧ ∀ e ∈ r.2, e.1 = src
        ∧ ∃ b, e.2 = MyRegisterMsg.Internal (PeerMsg.SyncMessage b) := by
  cases mb with
  | bad => simp [Peer.on_msg, decode_sync_message] at h
  | ok m =>
    rcases hg : (state.receive_sync_message src m).generate_sync_message src with ⟨om, d'⟩
    cases om with
    | none =>
      have he : Peer.on_msg cfg state src (.Internal (.SyncMessage (MsgBytes.ok m))) =
          some (d', []) := by
        simp [Peer.on_msg, decode_sync_message, hg]
      rw [he] at h
      injection h with h2
      subst h2
      exact ⟨by simp, by simp⟩
    | some reply =>
      have he : Peer.on_msg cfg state src (.Internal (.SyncMessage (MsgBytes.ok m))) =
          some (d', [(src, MyRegisterMsg.Internal (PeerMsg.SyncMessage reply.encode))]) := by
        simp [Peer.on_msg, decode_sync_message, hg]
      rw [he] at h
      injection h with h2
      subst h2
      refine ⟨by simp, ?_⟩
      intro e he'
      rcases List.mem_singleton.mp he' with rfl
      exact ⟨rfl, reply.encode, rfl⟩

/-- Claim C6 witness: an inbound sync message carrying no changes provokes
no reply at all. -/
theorem c6_witness :
    ((Doc.new 0, ([] : List (Id × MyRegisterMsg))) :
        Doc × List (Id × MyRegisterMsg)).2.length ≤ 1 :=
  (c6_at_most_one_reply ⟨[1, 2], SyncMethod.Messages, false⟩ (Doc.new 0) 1
      (MsgBytes.ok ⟨[]⟩) (Doc.new 0, []) (by decide)).1

/-- Claim C7: delivering a client `Get` never changes the document; a
`GetOk(id, value)` goes back to `src` exactly when the key maps to that
value and acknowledgements are enabled; a missing key, or disabled
acknowledgements, produce no output at all (and no error: the step still
succeeds). -/
theorem c7_get_read_only (peers : List Id) (sm : SyncMethod) (acks : Bool) (state : Doc)
    (src : Id) (id : RequestId) (key : Key) :
    ((Peer.on_msg ⟨peers, sm, acks⟩ state src (.Client (.Get id key))).map Prod.fst =
      some state)
    ∧ (∀ v, state.get key = some v → acks = true →
        peer_out ⟨peers, sm, acks⟩ state src (.Client (.Get id key)) =
          [(src, MyRegisterMsg.Client (ClientMsg.GetOk id v))])
    ∧ (state.get key = none →
        peer_out ⟨peers, sm, acks⟩ state src (.Client (.Get id key)) = [])
    ∧ (acks = false →
        peer_out ⟨peers, sm, acks⟩ state src (.Client (.Get id key)) = []) := by
  refine ⟨?_, ?_, ?_, ?_⟩
  · rcases hg : state.get key with _ | v <;> simp [Peer.on_msg, hg]
  · intro v hv ha
    subst ha
    simp [peer_out, Peer.on_msg, hv]
  · intro hv
    simp [peer_out, Peer.on_msg, hv]
  · intro ha
    subst ha
    rcases hg : state.get key with _ | v <;> simp [peer_out, Peer.on_msg, hg]

/-- Claim C7 witness: a present key with acknowledgements enabled yields the
matching `GetOk` at a concrete input. -/
theorem c7_witness :
    peer_out ⟨[1], SyncMethod.Changes, true⟩ ((Doc.new 0).put "k" "v") 5
        (.Client (.Get 7 "k")) =
      [(5, MyRegisterMsg.Client (ClientMsg.GetOk 7 "v"))] :=
  (c7_get_read_only [1] SyncMethod.Changes true ((Doc.new 0).put "k" "v") 5 7 "k").2.1
    "v" (by decide) rfl

/-- Actor classifier: replica actors. -/
def is_server_actor : MyRegisterActor → Bool
  | .Server _ => true
  | .Client _ => false

/-- Actor classifier: client actors. -/
def is_client_actor : MyRegisterActor → Bool
  | .Client _ => true
  | .Server _ => false

/-- Actor classifier: clients bound to the put request kind. -/
def is_put_client : MyRegisterActor → Bool
  | .Client c => c.request_type == RequestType.Put
  | .Server _ => false

/-- Actor classifier: clients bound to the delete request kind. -/
def is_delete_client : MyRegisterActor → Bool
  | .Client c => c.request_type == RequestType.Delete
  | .Server _ => false

/-- Actor classifier: clients bound to the insert request kind. -/
def is_insert_client : MyRegisterActor → Bool
  | .Client c => c.request_type == RequestType.Insert
  | .Server _ => false

lemma filter_map_true {α β : Type} (p : β → Bool) (f : α → β) (l : List α)
    (h : ∀ a, p (f a) = true) : (l.map f).filter p = l.map f :=
  List.filter_eq_self.mpr (by
    intro b hb
    rcases List.mem_map.mp hb with ⟨a, _, rfl⟩
    exact h a)

lemma filter_map_false {α β : Type} (p : β → Bool) (f : α → β) (l : List α)
    (h : ∀ a, p (f a) = false) : (l.map f).filter p = [] :=
  List.filter_eq_nil_iff.mpr (by
    intro b hb
    rcases List.mem_map.mp hb with ⟨a, _, rfl⟩
    simp [h a])

/-- The configuration of the claim C3 counterexample: one put client, one
delete client, two servers. -/
def c3cfg : ModelCfg := ⟨1, 1, 2, false, SyncMethod.Changes, false⟩

/-- Claim C3 counterexample: `ModelCfg` has no insert-client knob at all —
at a concrete configuration the assembler builds exactly
`put_clients + delete_clients` client actors (so any positive
`insert_clients` summand makes the claimed count wrong) and no client of
the insert request kind exists. -/
theorem c3_counterexample_no_insert_clients :
    (c3cfg.into_actor_model.filter is_client_actor).length =
      c3cfg.put_clients + c3cfg.delete_clients
    ∧ (c3cfg.into_actor_model.filter is_client_actor).length ≠
      c3cfg.put_clients + c3cfg.delete_clients + 1
    ∧ c3cfg.into_actor_model.filter is_insert_client = [] := by
  exact ⟨by decide, by decide, by decide⟩

/-- Claim C3 (amended): for every configuration the assembler builds exactly
`servers` replica actors — the replica at each index `i < servers` carrying
the complete-mesh peer set of every other replica index and the configured
strategy and acknowledgement flags — followed by exactly
`put_clients + delete_clients` client actors, `put_clients` of the put kind
then `delete_clients` of the delete kind, each with the fixed request count
2 and the configured server count; there is no insert-client configuration. -/
theorem c3_assembler_builds_mesh_and_clients (cfg : ModelCfg) :
    ((cfg.into_actor_model.filter is_server_actor).length = cfg.servers)
    ∧ ((cfg.into_actor_model.filter is_client_actor).length =
        cfg.put_clients + cfg.delete_clients)
    ∧ (∀ i, i < cfg.servers →
        cfg.into_actor_model.get? i = some (MyRegisterActor.Server
          ⟨model_peers i cfg.servers, cfg.sync_method, cfg.message_acks⟩))
    ∧ (∀ i j : Id, j ∈ model_peers i cfg.servers ↔ (j < cfg.servers ∧ j ≠ i))
    ∧ (∀ c, MyRegisterActor.Client c ∈ cfg.into_actor_model →
        c.count = 2 ∧ c.server_count = cfg.servers
          ∧ (c.request_type = RequestType.Put ∨ c.request_type = RequestType.Delete))
    ∧ ((cfg.into_actor_model.filter is_put_client).length = cfg.put_clients)
    ∧ ((cfg.into_actor_model.filter is_delete_client).length = cfg.delete_clients)
    ∧ ((cfg.into_actor_model.filter is_insert_client).length = 0) := by
  refine ⟨?_, ?_, ?_, ?_, ?_, ?_, ?_, ?_⟩
  · rw [ModelCfg.into_actor_model, List.filter_append, List.filter_append,
      filter_map_true is_server_actor (server_actor_of cfg) _ (fun _ => rfl),
      filter_map_false is_server_actor (fun _ => put_client_actor cfg) _ (fun _ => rfl),
      filter_map_false is_server_actor (fun _ => delete_client_actor cfg) _ (fun _ => rfl)]
    simp
  · rw [ModelCfg.into_actor_model, List.filter_append, List.filter_append,
      filter_map_false is_client_actor (server_actor_of cfg) _ (fun _ => rfl),
      filter_map_true is_client_actor (fun _ => put_client_actor cfg) _ (fun _ => rfl),
      filter_map_true is_client_actor (fun _ => delete_client_actor cfg) _ (fun _ => rfl)]
    simp
  · intro i hi
    rw [ModelCfg.into_actor_model]
    rw [List.get?_append (by simp [hi]; omega), List.get?_append (by simpa using hi)]
    rw [List.get?_map, List.get?_range hi]
    rfl
  · intro i j
    simp [model_peers, List.mem_filter, List.mem_range]
  · intro c hc
    simp only [ModelCfg.into_actor_model, List.mem_append, List.mem_map,
      List.mem_range] at hc
    rcases hc with (⟨i, _, hi⟩ | ⟨i, _, hi⟩) | ⟨i, _, hi⟩
    · exact absurd hi (by simp [server_actor_of])
    · rw [put_client_actor] at hi
      cases hi
      exact ⟨rfl, rfl, Or.inl rfl⟩
    · rw [delete_client_actor] at hi
      cases hi
      exact ⟨rfl, rfl, Or.inr rfl⟩
  · rw [ModelCfg.into_actor_model, List.filter_append, List.filter_append,
      filter_map_false is_put_client (server_actor_of cfg) _ (fun _ => rfl),
      filter_map_true is_put_client (fun _ => put_client_actor cfg) _ (fun _ => rfl),
      filter_map_false is_put_client (fun _ => delete_client_actor cfg) _ (fun _ => rfl)]
    simp
  · rw [ModelCfg.into_actor_model, List.filter_append, List.filter_append,
      filter_map_false is_delete_client (server_actor_of cfg) _ (fun _ => rfl),
      filter_map_false is_delete_client (fun _ => put_client_actor cfg) _ (fun _ => rfl),
      filter_map_true is_delete_client (fun _ => delete_client_actor cfg) _ (fun _ => rfl)]
    simp
  · rw [ModelCfg.into_actor_model, List.filter_append, List.filter_append,
      filter_map_false is_insert_client (server_actor_of cfg) _ (fun _ => rfl),
      filter_map_false is_insert_client (fun _ => put_client_actor cfg) _ (fun _ => rfl),
      filter_map_false is_insert_client (fun _ => delete_client_actor cfg) _ (fun _ => rfl)]
    simp

/-- Claim C3 witness: the complete-mesh description applied at a concrete
pair of replica indices. -/
theorem c3_witness :
    (1 : Id) ∈ model_peers 0 2 ↔ ((1 : Id) < 2 ∧ (1 : Id) ≠ 0) :=
  (c3_assembler_builds_mesh_and_clients c3cfg).2.2.2.1 0 1

end CheckedAutomerge
